import Mathlib

/-!
Verification of the `dsim` message-bus core (`src/message_bus/`): a shallow
embedding of `envelope.rs`, `message_bus.rs` and `simulator.rs` into Lean,
together with theorems about the embedded operations.

Modelling conventions, used throughout:
* `std::time::SystemTime` points and `std::time::Duration` values become `Nat`
  (virtual nanoseconds).  `SystemTime::duration_since(..).unwrap_or(ZERO)` is
  exactly truncated subtraction on `Nat`.
* `HashMap<String, Box<dyn Subscriber>>` becomes an association list
  `List (String × S)` with unique keys; iteration order of the map is
  implementation-defined but fixed for a run, which the list order models.
* A `Box<dyn Subscriber>` is an element of an arbitrary state type `S`
  equipped with `SubscriberOps M S`: the `tick`/`receive` trait methods as
  pure state transformers returning the outbound envelopes.
* `Vec<VecDeque<_>>` (the priority lanes) becomes `List (List _)`;
  `push_back` appends at the tail and iteration is front-to-back.
* A Rust panic (the `.unwrap()` in `Simulator::step`) is modelled by `Option`:
  `none` means the call panicked.
-/

set_option autoImplicit false

universe u v

/-! ### Generic list-of-lanes helpers -/

/-- Concatenation of a list of lanes in order (front lane first). -/
def listFlat {α : Type u} : List (List α) → List α
  | [] => []
  | l :: ls => l ++ listFlat ls

/-- Contents of lane `i`; empty when `i` is out of range.  Models reading
`queues[i]` (all source indexing is in bounds, so the out-of-range default is
never reached on reachable states). -/
def laneGet {α : Type u} : List (List α) → Nat → List α
  | [], _ => []
  | l :: _, 0 => l
  | _ :: ls, n + 1 => laneGet ls n

/-- Replace the contents of lane `i` (no-op when out of range). -/
def setLane {α : Type u} : List (List α) → Nat → List α → List (List α)
  | [], _, _ => []
  | _ :: ls, 0, x => x :: ls
  | l :: ls, n + 1, x => l :: setLane ls n x

/-- `queues[i].push_back(x)` / `txs[i].send(x)`: append `x` at the back of
lane `i`. -/
def enqueueAt {α : Type u} (qs : List (List α)) (i : Nat) (x : α) : List (List α) :=
  setLane qs i (laneGet qs i ++ [x])

/-! ### Messages with runtime type identity (`envelope.rs`)

A `Box<dyn Message>` carries a value together with its `TypeId`.  The open
universe of Rust types is modelled by an index type `ι` with decidable
equality (the `TypeId`s) and a family `F : ι → Type` (the payload type each
tag denotes).  `DynMsg.downcast` embeds
`<dyn Message>::downcast::<T>(self) -> Result<Box<T>, Box<dyn Message>>`:
the `is::<T>` test compares type identities; on success the payload is
returned, on failure the original boxed message is handed back. -/

structure DynMsg (ι : Type u) (F : ι → Type v) where
  tag : ι
  val : F tag

/-- `<dyn Message>::downcast::<T>` from `envelope.rs`: test `is::<T>` and
either return owning access to the payload or the untouched original. -/
def DynMsg.downcast {ι : Type u} {F : ι → Type v} [DecidableEq ι]
    (t : ι) (m : DynMsg ι F) : Except (DynMsg ι F) (F t) :=
  if h : m.tag = t then Except.ok (h ▸ m.val) else Except.error m

/-! ### Envelopes, simulator events, call records -/

/-- `Envelope` from `envelope.rs`: a message plus routing metadata.  The
payload type is a parameter `M` because the core never inspects it. -/
structure Envelope (M : Type u) where
  message : M
  priority : Nat
  destination : String
  deriving DecidableEq

/-- `SimulatorEvent` from `simulator.rs`. -/
inductive SimulatorEvent (M : Type u) where
  | envelope (e : Envelope M) (t : Nat)
  | tick (t : Nat)
  deriving DecidableEq

/-- The two trait methods of `Subscriber` (`message_bus.rs`), as pure state
transformers on a subscriber-state type `S`. -/
structure SubscriberOps (M : Type u) (S : Type v) where
  receive : S → M → Nat → S × List (Envelope M)
  tick : S → Nat → S × List (Envelope M)

/-- Observation record of one subscriber-callback invocation: which callback
ran, on which subscriber, at which timestamp, and the envelopes it returned.
Used to state ordering and conservation properties of a simulator step. -/
inductive CallRec (M : Type u) where
  | tickCall (name : String) (t : Nat) (outs : List (Envelope M))
  | receiveCall (name : String) (msg : M) (t : Nat) (outs : List (Envelope M))
  deriving DecidableEq

def CallRec.name {M : Type u} : CallRec M → String
  | .tickCall n _ _ => n
  | .receiveCall n _ _ _ => n

def CallRec.time {M : Type u} : CallRec M → Nat
  | .tickCall _ t _ => t
  | .receiveCall _ _ t _ => t

def CallRec.outs {M : Type u} : CallRec M → List (Envelope M)
  | .tickCall _ _ o => o
  | .receiveCall _ _ _ o => o

def CallRec.isTick {M : Type u} : CallRec M → Bool
  | .tickCall _ _ _ => true
  | .receiveCall _ _ _ _ => false

def CallRec.isReceive {M : Type u} : CallRec M → Bool
  | .tickCall _ _ _ => false
  | .receiveCall _ _ _ _ => true

def SimulatorEvent.isEnvelope {M : Type u} : SimulatorEvent M → Bool
  | .envelope _ _ => true
  | .tick _ => false

/-! ### Subscriber registry (`HashMap<String, Box<dyn Subscriber>>`) -/

/-- `map.get(name)` on the registry. -/
def lookupSub {S : Type v} (name : String) : List (String × S) → Option S
  | [] => none
  | p :: rest => if p.1 = name then some p.2 else lookupSub name rest

/-- Write back the mutated state of the subscriber registered under `name`
(the effect of calling a `&mut` method through `get_mut`). -/
def updateSub {S : Type v} (name : String) (s : S) : List (String × S) → List (String × S)
  | [] => []
  | p :: rest => if p.1 = name then (name, s) :: rest else p :: updateSub name s rest

/-- `HashMap::insert` on the registry: replace the binding if the key is
present, otherwise add a new one. -/
def insertSub {S : Type v} : List (String × S) → String → S → List (String × S)
  | [], n, s => [(n, s)]
  | p :: rest, n, s => if p.1 = n then (n, s) :: rest else p :: insertSub rest n s

/-! ### The Simulator (`simulator.rs`) -/

/-- `Simulator` from `simulator.rs`: registry, priority-partitioned pending
events, and the virtual clock. -/
structure Simulator (M : Type u) (S : Type v) where
  subscribers : List (String × S)
  events : List (List (SimulatorEvent M))
  time : Nat
  deriving DecidableEq

/-- `Simulator::new`: take the initial lanes as given and normalize an empty
lane vector to a single empty lane. -/
def Simulator.new {M : Type u} {S : Type v} (subscribers : List (String × S))
    (initialTime : Nat) (initialEvents : List (List (SimulatorEvent M))) : Simulator M S :=
  { subscribers := subscribers
    events := if initialEvents.isEmpty then [[]] else initialEvents
    time := initialTime }

/-- `envelope.priority.min(num_queues - 1)`: the saturated lane index an
envelope is routed to, given `nq` lanes. -/
def laneOf {M : Type u} (nq : Nat) (e : Envelope M) : Nat :=
  min e.priority (nq - 1)

/-- Enqueue the envelopes returned by one subscriber callback into the
next-step buffer, in returned order, each on its saturated priority lane and
stamped with the given timestamp.  Embeds the
`for envelope in envelopes { new_events[priority].push_back(..) }` loops of
`Simulator::step`. -/
def emitAll {M : Type u} (nq t : Nat) (envs : List (Envelope M))
    (buf : List (List (SimulatorEvent M))) : List (List (SimulatorEvent M)) :=
  envs.foldl (fun b e => enqueueAt b (laneOf nq e) (SimulatorEvent.envelope e t)) buf

/-- Intermediate state threaded through the phases of `Simulator::step`:
the (mutated) registry, the next-step event buffer, and the observation
trace of callback invocations so far. -/
structure Phase (M : Type u) (S : Type v) where
  subs : List (String × S)
  buf : List (List (SimulatorEvent M))
  tr : List (CallRec M)
  deriving DecidableEq

/-- Fire `tick` on every subscriber in registry order at time `t`, capturing
each returned envelope into the next-step buffer.  Embeds both the tick phase
of `Simulator::step` and the handling of a drained `SimulatorEvent::Tick`. -/
def tickSubs {M : Type u} {S : Type v} (ops : SubscriberOps M S) (nq t : Nat) :
    List (String × S) → List (List (SimulatorEvent M)) → List (CallRec M) → Phase M S
  | [], buf, tr => ⟨[], buf, tr⟩
  | (n, s) :: rest, buf, tr =>
    let p := ops.tick s t
    let ph := tickSubs ops nq t rest (emitAll nq t p.2 buf) (tr ++ [CallRec.tickCall n t p.2])
    ⟨(n, p.1) :: ph.subs, ph.buf, ph.tr⟩

/-- Process one drained event (the body of the drain loop in
`Simulator::step`).  A `SimulatorEvent::Envelope` whose destination is not
registered hits `subscribers.get_mut(..).unwrap()` in the source and panics:
that is the `none` result. -/
def drainEvent {M : Type u} {S : Type v} (ops : SubscriberOps M S) (nq : Nat)
    (ev : SimulatorEvent M) (ph : Phase M S) : Option (Phase M S) :=
  match ev with
  | .envelope e t =>
    match lookupSub e.destination ph.subs with
    | none => none
    | some s =>
      let p := ops.receive s e.message t
      some ⟨updateSub e.destination p.1 ph.subs, emitAll nq t p.2 ph.buf,
            ph.tr ++ [CallRec.receiveCall e.destination e.message t p.2]⟩
  | .tick t => some (tickSubs ops nq t ph.subs ph.buf ph.tr)

/-- Drain a sequence of events one after another, stopping at a panic. -/
def drainSeq {M : Type u} {S : Type v} (ops : SubscriberOps M S) (nq : Nat) :
    List (SimulatorEvent M) → Phase M S → Option (Phase M S)
  | [], ph => some ph
  | ev :: rest, ph =>
    match drainEvent ops nq ev ph with
    | none => none
    | some ph2 => drainSeq ops nq rest ph2

/-- Drain a list of lanes in list order, each lane front-to-back.  `Simulator
::step` calls this on `events.reverse`, matching `events.into_iter().rev()`
(highest-priority lane first). -/
def drainLanes {M : Type u} {S : Type v} (ops : SubscriberOps M S) (nq : Nat) :
    List (List (SimulatorEvent M)) → Phase M S → Option (Phase M S)
  | [], ph => some ph
  | lane :: rest, ph =>
    match drainSeq ops nq lane ph with
    | none => none
    | some ph2 => drainLanes ops nq rest ph2

/-- `Simulator::step`: tick phase at the pre-step time, advance the clock by
`stepBy`, drain the frozen pre-step event set in decreasing priority order,
and install the freshly captured events as the next step's event set.
Returns the stepped simulator (whose `time` is the returned new time) plus
the observation trace; `none` models the `unwrap` panic on an unknown
destination. -/
def Simulator.step {M : Type u} {S : Type v} (ops : SubscriberOps M S)
    (sim : Simulator M S) (stepBy : Nat) : Option (Simulator M S × List (CallRec M)) :=
  let nq := sim.events.length
  let ph := tickSubs ops nq sim.time sim.subscribers (List.replicate nq []) []
  match drainLanes ops nq sim.events.reverse ph with
  | none => none
  | some ph2 => some (⟨ph2.subs, ph2.buf, sim.time + stepBy⟩, ph2.tr)

/-- Modelled from the spec: "Consume the current step's event set in
descending priority order; within a lane, FIFO" — the drain phase as a single
pass over one flat event sequence, highest-priority lane first, lane contents
in FIFO order.  Compared against `Simulator.step` (which drains with the
source's nested loops) in the strict-priority theorem. -/
def Simulator.stepFlat {M : Type u} {S : Type v} (ops : SubscriberOps M S)
    (sim : Simulator M S) (stepBy : Nat) : Option (Simulator M S × List (CallRec M)) :=
  let nq := sim.events.length
  let ph := tickSubs ops nq sim.time sim.subscribers (List.replicate nq []) []
  match drainSeq ops nq (listFlat sim.events.reverse) ph with
  | none => none
  | some ph2 => some (⟨ph2.subs, ph2.buf, sim.time + stepBy⟩, ph2.tr)

/-- `Simulator::step_to`: repeatedly `step(min(step_by, target - time))` until
the clock reaches the target or the increment becomes zero.
`duration_since(..).unwrap_or(ZERO)` is truncated subtraction on `Nat`. -/
def Simulator.stepTo {M : Type u} {S : Type v} (ops : SubscriberOps M S)
    (sim : Simulator M S) (target stepBy : Nat) : Option (Simulator M S) :=
  if h1 : sim.time < target then
    if h0 : min stepBy (target - sim.time) = 0 then some sim
    else
      match hs : Simulator.step ops sim (min stepBy (target - sim.time)) with
      | none => none
      | some p => Simulator.stepTo ops p.1 target stepBy
  else some sim
termination_by target - sim.time
decreasing_by
  have ht : p.1.time = sim.time + min stepBy (target - sim.time) := by
    simp only [Simulator.step] at hs
    split at hs
    · exact Option.noConfusion hs
    · cases hs
      rfl
  omega

/-! ### The live MessageBus (`message_bus.rs`) -/

/-- Payloads travelling on the live bus: a user message, or the internal
`NopEnvelope` sentinel that `stop` injects to wake a blocked receiver
(both live behind `Box<dyn Message>` in the source). -/
inductive BusMsg (M : Type u) where
  | user (m : M)
  | nop
  deriving DecidableEq

/-- Observable state of a `MessageBus`.  `queues` holds the contents of the
`flume` channels (one unbounded FIFO per priority lane); `handle` records
whether a join handle for the dispatch thread is held; `rxsTaken` records
whether `start` has already taken `msg_rxs`.  The dispatch thread's loop
itself is driven by wall-clock time; its two per-iteration phases are
embedded separately as `tryPoll` (the priority poll) and `busDeliver`
(the delivery phase). -/
structure MessageBus (M : Type u) (S : Type v) where
  subscribers : List (String × S)
  queues : List (List (Envelope (BusMsg M)))
  tickInterval : Nat
  shutdown : Bool
  handle : Bool
  rxsTaken : Bool
  deriving DecidableEq

/-- `MessageBus::with_hook`: clamp a requested queue count of 0 up to 1 and
create that many empty lanes.  The hook is an observer with no effect on the
modelled state and is not represented. -/
def MessageBus.withHook {M : Type u} {S : Type v} (tickInterval queueCount : Nat) :
    MessageBus M S :=
  { subscribers := []
    queues := List.replicate (if queueCount = 0 then 1 else queueCount) []
    tickInterval := tickInterval
    shutdown := false
    handle := false
    rxsTaken := false }

/-- `MessageBus::new` delegates to `with_hook` with the no-op hook. -/
def MessageBus.new {M : Type u} {S : Type v} (tickInterval queueCount : Nat) :
    MessageBus M S :=
  MessageBus.withHook tickInterval queueCount

/-- `MessageBus::subscribe`: `self.subscribers.insert(destination, sender)`. -/
def MessageBus.subscribe {M : Type u} {S : Type v} (b : MessageBus M S)
    (destination : String) (sender : S) : MessageBus M S :=
  { b with subscribers := insertSub b.subscribers destination sender }

/-- `txs[envelope.priority.min(len - 1)].send(envelope)`: the saturated-lane
send used by `publish` and by the dispatch loop for callback-returned
envelopes. -/
def busSend {A : Type u} (qs : List (List (Envelope A))) (e : Envelope A) :
    List (List (Envelope A)) :=
  enqueueAt qs (laneOf qs.length e) e

/-- Enqueue a callback's returned envelopes in returned order. -/
def busSendAll {A : Type u} (qs : List (List (Envelope A))) (envs : List (Envelope A)) :
    List (List (Envelope A)) :=
  envs.foldl busSend qs

/-- `MessageBus::publish`. -/
def MessageBus.publish {M : Type u} {S : Type v} (b : MessageBus M S)
    (e : Envelope (BusMsg M)) : MessageBus M S :=
  { b with queues := busSend b.queues e }

/-- `MessageBus::start`: takes `msg_rxs` (panicking — `none` — on a second
start) and spawns the dispatch thread, keeping its join handle. -/
def MessageBus.start {M : Type u} {S : Type v} (b : MessageBus M S) :
    Option (MessageBus M S) :=
  if b.rxsTaken then none else some { b with rxsTaken := true, handle := true }

/-- The non-blocking priority poll of the dispatch loop: scan lanes from
index `len-1` down to `0`, `try_recv` on each, and take the first envelope
found.  `tryPollFrom qs k` scans indices `k-1, k-2, …, 0`; on a hit it
returns the lane index, the envelope (the front of that lane) and the lanes
with that envelope removed. -/
def tryPollFrom {A : Type u} (qs : List (List (Envelope A))) :
    Nat → Option (Nat × Envelope A × List (List (Envelope A)))
  | 0 => none
  | i + 1 =>
    match laneGet qs i with
    | [] => tryPollFrom qs i
    | e :: rest => some (i, e, setLane qs i rest)

/-- The full scan: `for i in (0..rxs.len()).rev() { try_recv }`. -/
def tryPoll {A : Type u} (qs : List (List (Envelope A))) :
    Option (Nat × Envelope A × List (List (Envelope A))) :=
  tryPollFrom qs qs.length

/-- The delivery phase of one dispatch-loop iteration: look the destination
up, silently skip the envelope when it is unregistered (`let Some(..) else
continue`), otherwise run `receive` and enqueue the returned envelopes. -/
def busDeliver {M : Type u} {S : Type v} (ops : SubscriberOps M S)
    (subs : List (String × S)) (txs : List (List (Envelope M)))
    (e : Envelope M) (t : Nat) : List (String × S) × List (List (Envelope M)) :=
  match lookupSub e.destination subs with
  | none => (subs, txs)
  | some s =>
    let p := ops.receive s e.message t
    (updateSub e.destination p.1 subs, busSendAll txs p.2)

/-- The no-op wake envelope `stop` sends: a `NopEnvelope` with empty
destination and priority 0, pushed directly onto the top-priority channel. -/
def sentinelEnvelope (M : Type u) : Envelope (BusMsg M) :=
  { message := BusMsg.nop, priority := 0, destination := "" }

/-- `MessageBus::stop`: `shutdown.swap(true)`; when the flag was already set,
return immediately, otherwise inject the sentinel on the top-priority lane
and join the dispatch thread. -/
def MessageBus.stop {M : Type u} {S : Type v} (b : MessageBus M S) : MessageBus M S :=
  if b.shutdown then b
  else
    { b with shutdown := true
             queues := enqueueAt b.queues (b.queues.length - 1) (sentinelEnvelope M)
             handle := false }

/-! ### Specification-level observables -/

/-- All envelopes emitted by the callbacks of a trace, in emission order,
each wrapped as the `SimulatorEvent::Envelope(envelope, at)` that
`Simulator::step` pushes into the next-step buffer (`at` being the timestamp
the callback was invoked with). -/
def emittedOf {M : Type u} (tr : List (CallRec M)) : List (SimulatorEvent M) :=
  listFlat (tr.map (fun r => r.outs.map (fun e => SimulatorEvent.envelope e r.time)))

/-- The lane a buffered event lives on (`tick` events never occur in a
freshly captured buffer; they are assigned lane 0 vacuously). -/
def evLane {M : Type u} (nq : Nat) : SimulatorEvent M → Nat
  | .envelope e _ => laneOf nq e
  | .tick _ => 0

/-- The next-step buffer is exactly the trace's emitted envelopes,
partitioned by saturated priority lane, in emission order. -/
def bufInv {M : Type u} (nq : Nat) (buf : List (List (SimulatorEvent M)))
    (tr : List (CallRec M)) : Prop :=
  buf.length = nq ∧
  ∀ i, i < nq → laneGet buf i = (emittedOf tr).filter (fun ev => evLane nq ev == i)

/-! ### Concrete instances used by witnesses and counterexamples -/

/-- Subscriber behaviour that does nothing: both callbacks keep the state
and return no envelopes. -/
def opsZero : SubscriberOps Nat Nat :=
  { receive := fun s _ _ => (s, []), tick := fun s _ => (s, []) }

/-- Subscriber behaviour whose tick emits one priority-3 envelope to `"a"`
and whose receive adds the payload to the state. -/
def opsPing : SubscriberOps Nat Nat :=
  { receive := fun s m _ => (s + m, [])
    tick := fun s t => (s + 1, [{ message := s + t, priority := 3, destination := "a" }]) }

/-- A simulator holding one pending envelope addressed to a destination with
no registered subscriber. -/
def simGhost : Simulator Nat Nat :=
  { subscribers := []
    events := [[SimulatorEvent.envelope { message := 0, priority := 0, destination := "ghost" } 0]]
    time := 0 }

/-- A one-subscriber simulator with one pending envelope and two lanes. -/
def simOne : Simulator Nat Nat :=
  { subscribers := [("a", 10)]
    events := [[SimulatorEvent.envelope { message := 2, priority := 0, destination := "a" } 7], []]
    time := 100 }

/-- A bus with two lanes, one registered subscriber, not yet stopped. -/
def busOne : MessageBus Nat Nat :=
  (MessageBus.new 5 2).subscribe ("a") 0

/-- `busOne` after `start`. -/
def busStarted : MessageBus Nat Nat :=
  { busOne with rxsTaken := true, handle := true }

/-- A simulator with no subscribers, one empty lane, clock at 0. -/
def simEmpty : Simulator Nat Nat :=
  { subscribers := [], events := [[]], time := 0 }

/-- The simulator `simOne` after `step opsPing _ 5`, written out. -/
def simOneStepped : Simulator Nat Nat :=
  { subscribers := [("a", 13)]
    events := [[], [SimulatorEvent.envelope { message := 110, priority := 3, destination := "a" } 100]]
    time := 105 }

/-- The observation trace of `step opsPing simOne 5`, written out. -/
def trOne : List (CallRec Nat) :=
  [CallRec.tickCall ("a") 100 [{ message := 110, priority := 3, destination := "a" }],
   CallRec.receiveCall ("a") 2 7 []]

/-- An envelope addressed to an unregistered destination. -/
def eGhost : Envelope Nat :=
  { message := 0, priority := 0, destination := "ghost" }

def envX : Envelope Nat := { message := 1, priority := 0, destination := "x" }

def envY : Envelope Nat := { message := 2, priority := 1, destination := "y" }

/-- Two lanes, both non-empty: the poll must take `envY` from lane 1. -/
def qsTwo : List (List (Envelope Nat)) := [[envX], [envY]]

/-- An envelope whose priority (9) exceeds the two-lane bus's top index. -/
def envHigh : Envelope (BusMsg Nat) :=
  { message := BusMsg.user 5, priority := 9, destination := "a" }

/-! ## Theorems -/

/-! ### Lane-list lemmas -/

theorem listFlat_append {α : Type u} :
    ∀ (a b : List (List α)), listFlat (a ++ b) = listFlat a ++ listFlat b
  | [], _ => rfl
  | l :: ls, b => by simp [listFlat, listFlat_append ls b]

theorem setLane_length {α : Type u} :
    ∀ (qs : List (List α)) (i : Nat) (x : List α), (setLane qs i x).length = qs.length
  | [], _, _ => rfl
  | _ :: _, 0, _ => rfl
  | l :: ls, n + 1, x => by simp [setLane, setLane_length ls n x]

theorem laneGet_setLane_self {α : Type u} :
    ∀ (qs : List (List α)) (i : Nat) (x : List α), i < qs.length →
      laneGet (setLane qs i x) i = x
  | _ :: _, 0, _, _ => rfl
  | l :: ls, n + 1, x, h => laneGet_setLane_self ls n x (by simpa using h)

theorem laneGet_setLane_other {α : Type u} :
    ∀ (qs : List (List α)) (i j : Nat) (x : List α), i ≠ j →
      laneGet (setLane qs i x) j = laneGet qs j
  | [], _, _, _, _ => rfl
  | _ :: _, 0, 0, _, h => absurd rfl h
  | _ :: _, 0, _ + 1, _, _ => rfl
  | _ :: _, _ + 1, 0, _, _ => rfl
  | _ :: ls, n + 1, m + 1, x, h =>
      laneGet_setLane_other ls n m x (fun hn => h (by simp [hn]))

theorem enqueueAt_length {α : Type u} (qs : List (List α)) (i : Nat) (x : α) :
    (enqueueAt qs i x).length = qs.length :=
  setLane_length qs i _

theorem laneGet_enqueueAt_self {α : Type u} (qs : List (List α)) (i : Nat) (x : α)
    (h : i < qs.length) : laneGet (enqueueAt qs i x) i = laneGet qs i ++ [x] :=
  laneGet_setLane_self qs i _ h

theorem laneGet_enqueueAt_other {α : Type u} (qs : List (List α)) (i j : Nat) (x : α)
    (h : i ≠ j) : laneGet (enqueueAt qs i x) j = laneGet qs j :=
  laneGet_setLane_other qs i j _ h

theorem laneGet_replicate {α : Type u} :
    ∀ (n i : Nat), laneGet (List.replicate n ([] : List α)) i = []
  | 0, _ => rfl
  | _ + 1, 0 => rfl
  | n + 1, i + 1 => by simpa [List.replicate, laneGet] using laneGet_replicate n i

theorem laneGet_of_length_le {α : Type u} :
    ∀ (qs : List (List α)) (i : Nat), qs.length ≤ i → laneGet qs i = []
  | [], _, _ => rfl
  | _ :: ls, i + 1, h => laneGet_of_length_le ls i (by simpa using h)

theorem filter_map_comm {α β : Type u} (f : α → β) (p : β → Bool) :
    ∀ (l : List α), (l.map f).filter p = (l.filter (fun a => p (f a))).map f
  | [] => rfl
  | a :: l => by
    by_cases h : p (f a) <;>
      simp [List.filter_cons, h, filter_map_comm f p l]

/-! ### Capture-buffer lemmas -/

theorem emitAll_nil {M : Type u} (nq t : Nat) (buf : List (List (SimulatorEvent M))) :
    emitAll nq t [] buf = buf := rfl

theorem emitAll_cons {M : Type u} (nq t : Nat) (e : Envelope M) (rest : List (Envelope M))
    (buf : List (List (SimulatorEvent M))) :
    emitAll nq t (e :: rest) buf
      = emitAll nq t rest (enqueueAt buf (laneOf nq e) (SimulatorEvent.envelope e t)) := rfl

theorem emitAll_length {M : Type u} (nq t : Nat) :
    ∀ (envs : List (Envelope M)) (buf : List (List (SimulatorEvent M))),
      (emitAll nq t envs buf).length = buf.length
  | [], _ => rfl
  | e :: rest, buf => by
    rw [emitAll_cons, emitAll_length nq t rest _, enqueueAt_length]

theorem laneOf_lt {M : Type u} (nq : Nat) (hnq : 1 ≤ nq) (e : Envelope M) :
    laneOf nq e < nq := by
  simp only [laneOf]
  omega

theorem laneGet_emitAll {M : Type u} (nq t : Nat) (hnq : 1 ≤ nq) :
    ∀ (envs : List (Envelope M)) (buf : List (List (SimulatorEvent M))),
      buf.length = nq → ∀ i, i < nq →
      laneGet (emitAll nq t envs buf) i
        = laneGet buf i
            ++ (envs.filter (fun e => laneOf nq e == i)).map (fun e => SimulatorEvent.envelope e t)
  | [], buf, hb, i, hi => by simp [emitAll_nil]
  | e :: rest, buf, hb, i, hi => by
    rw [emitAll_cons,
        laneGet_emitAll nq t hnq rest _ (by rw [enqueueAt_length]; exact hb) i hi]
    by_cases h : laneOf nq e = i
    · subst h
      rw [laneGet_enqueueAt_self buf _ _ (by rw [hb]; exact laneOf_lt nq hnq e)]
      simp [List.filter_cons]
    · rw [laneGet_enqueueAt_other buf _ _ _ h]
      simp [List.filter_cons, h]

theorem emittedOf_nil {M : Type u} : emittedOf ([] : List (CallRec M)) = [] := rfl

theorem emittedOf_snoc {M : Type u} (tr : List (CallRec M)) (r : CallRec M) :
    emittedOf (tr ++ [r])
      = emittedOf tr ++ r.outs.map (fun e => SimulatorEvent.envelope e r.time) := by
  simp [emittedOf, listFlat_append, listFlat]

theorem bufInv_init {M : Type u} (nq : Nat) :
    bufInv nq (List.replicate nq ([] : List (SimulatorEvent M))) [] := by
  refine ⟨by simp, ?_⟩
  intro i hi
  simp [laneGet_replicate, emittedOf_nil]

theorem bufInv_emit {M : Type u} (nq : Nat) (hnq : 1 ≤ nq)
    {buf : List (List (SimulatorEvent M))} {tr : List (CallRec M)} (r : CallRec M)
    (hinv : bufInv nq buf tr) :
    bufInv nq (emitAll nq r.time r.outs buf) (tr ++ [r]) := by
  obtain ⟨hlen, hlane⟩ := hinv
  refine ⟨by rw [emitAll_length, hlen], ?_⟩
  intro i hi
  rw [laneGet_emitAll nq r.time hnq r.outs buf hlen i hi, hlane i hi, emittedOf_snoc,
      List.filter_append, filter_map_comm]
  rfl

/-! ### Tick-phase lemmas -/

theorem tickSubs_buf_length {M : Type u} {S : Type v} (ops : SubscriberOps M S) (nq t : Nat) :
    ∀ (subs : List (String × S)) (buf : List (List (SimulatorEvent M))) (tr : List (CallRec M)),
      (tickSubs ops nq t subs buf tr).buf.length = buf.length
  | [], _, _ => rfl
  | (n, s) :: rest, buf, tr => by
    simp only [tickSubs]
    rw [tickSubs_buf_length ops nq t rest, emitAll_length]

theorem tickSubs_spec {M : Type u} {S : Type v} (ops : SubscriberOps M S) (nq t : Nat)
    (hnq : 1 ≤ nq) :
    ∀ (subs : List (String × S)) (buf : List (List (SimulatorEvent M))) (tr : List (CallRec M)),
      bufInv nq buf tr →
      bufInv nq (tickSubs ops nq t subs buf tr).buf (tickSubs ops nq t subs buf tr).tr ∧
      ∃ recs, (tickSubs ops nq t subs buf tr).tr = tr ++ recs ∧
        recs.map CallRec.name = subs.map Prod.fst ∧
        ∀ r ∈ recs, CallRec.isTick r = true ∧ CallRec.time r = t
  | [], buf, tr, hinv => by
    refine ⟨by simpa [tickSubs] using hinv, [], by simp [tickSubs], by simp, by simp⟩
  | (n, s) :: rest, buf, tr, hinv => by
    have hinv2 : bufInv nq (emitAll nq t (ops.tick s t).2 buf)
        (tr ++ [CallRec.tickCall n t (ops.tick s t).2]) :=
      bufInv_emit nq hnq (CallRec.tickCall n t (ops.tick s t).2) hinv
    obtain ⟨hinv3, recs, htr, hnames, hall⟩ := tickSubs_spec ops nq t hnq rest _ _ hinv2
    simp only [tickSubs]
    refine ⟨hinv3, CallRec.tickCall n t (ops.tick s t).2 :: recs, ?_, ?_, ?_⟩
    · rw [htr]
      simp
    · simp [hnames, CallRec.name]
    · intro r hr
      rcases List.mem_cons.mp hr with h | h
      · subst h
        exact ⟨rfl, rfl⟩
      · exact hall r h

/-! ### Drain-phase lemmas -/

theorem drainEvent_buf_length {M : Type u} {S : Type v} (ops : SubscriberOps M S) (nq : Nat)
    (ev : SimulatorEvent M) (ph ph' : Phase M S) (h : drainEvent ops nq ev ph = some ph') :
    ph'.buf.length = ph.buf.length := by
  cases ev with
  | envelope e t =>
    simp only [drainEvent] at h
    split at h
    · exact Option.noConfusion h
    · cases h
      exact emitAll_length nq t _ ph.buf
  | tick t =>
    simp only [drainEvent] at h
    cases h
    exact tickSubs_buf_length ops nq t ph.subs ph.buf ph.tr

theorem drainEvent_spec {M : Type u} {S : Type v} (ops : SubscriberOps M S) (nq : Nat)
    (hnq : 1 ≤ nq) (ev : SimulatorEvent M) (ph ph' : Phase M S)
    (h : drainEvent ops nq ev ph = some ph') (hinv : bufInv nq ph.buf ph.tr) :
    bufInv nq ph'.buf ph'.tr ∧
    ∃ recs, ph'.tr = ph.tr ++ recs ∧
      recs.countP CallRec.isReceive = (if ev.isEnvelope then 1 else 0) := by
  cases ev with
  | envelope e t =>
    simp only [drainEvent] at h
    split at h
    · exact Option.noConfusion h
    · next s hlook =>
      cases h
      refine ⟨bufInv_emit nq hnq
        (CallRec.receiveCall e.destination e.message t (ops.receive s e.message t).2) hinv,
        [CallRec.receiveCall e.destination e.message t (ops.receive s e.message t).2], rfl, ?_⟩
      simp [List.countP_cons, CallRec.isReceive, SimulatorEvent.isEnvelope]
  | tick t =>
    simp only [drainEvent] at h
    cases h
    obtain ⟨hinv2, recs, htr, hnames, hall⟩ := tickSubs_spec ops nq t hnq ph.subs ph.buf ph.tr hinv
    refine ⟨hinv2, recs, htr, ?_⟩
    rw [List.countP_eq_zero.mpr ?_]
    · simp [SimulatorEvent.isEnvelope]
    · intro r hr
      have := (hall r hr).1
      cases r with
      | tickCall _ _ _ => simp [CallRec.isReceive]
      | receiveCall _ _ _ _ => exact absurd this (by simp [CallRec.isTick])

theorem drainSeq_buf_length {M : Type u} {S : Type v} (ops : SubscriberOps M S) (nq : Nat) :
    ∀ (evs : List (SimulatorEvent M)) (ph ph' : Phase M S),
      drainSeq ops nq evs ph = some ph' → ph'.buf.length = ph.buf.length
  | [], ph, ph', h => by cases h; rfl
  | ev :: rest, ph, ph', h => by
    cases hde : drainEvent ops nq ev ph with
    | none =>
      simp only [drainSeq, hde] at h
      exact Option.noConfusion h
    | some ph2 =>
      simp only [drainSeq, hde] at h
      exact (drainSeq_buf_length ops nq rest ph2 ph' h).trans
        (drainEvent_buf_length ops nq ev ph ph2 hde)

theorem drainSeq_spec {M : Type u} {S : Type v} (ops : SubscriberOps M S) (nq : Nat)
    (hnq : 1 ≤ nq) :
    ∀ (evs : List (SimulatorEvent M)) (ph ph' : Phase M S),
      drainSeq ops nq evs ph = some ph' → bufInv nq ph.buf ph.tr →
      bufInv nq ph'.buf ph'.tr ∧
      ∃ recs, ph'.tr = ph.tr ++ recs ∧
        recs.countP CallRec.isReceive = evs.countP SimulatorEvent.isEnvelope
  | [], ph, ph', h, hinv => by
    cases h
    exact ⟨hinv, [], by simp, by simp⟩
  | ev :: rest, ph, ph', h, hinv => by
    cases hde : drainEvent ops nq ev ph with
    | none =>
      simp only [drainSeq, hde] at h
      exact Option.noConfusion h
    | some ph2 =>
      simp only [drainSeq, hde] at h
      obtain ⟨hinv2, recs1, htr1, hcnt1⟩ := drainEvent_spec ops nq hnq ev ph ph2 hde hinv
      obtain ⟨hinv3, recs2, htr2, hcnt2⟩ := drainSeq_spec ops nq hnq rest ph2 ph' h hinv2
      refine ⟨hinv3, recs1 ++ recs2, ?_, ?_⟩
      · rw [htr2, htr1, List.append_assoc]
      · rw [List.countP_append, hcnt1, hcnt2, List.countP_cons]
        cases ev <;> simp [SimulatorEvent.isEnvelope] <;> omega

theorem drainSeq_append {M : Type u} {S : Type v} (ops : SubscriberOps M S) (nq : Nat) :
    ∀ (a b : List (SimulatorEvent M)) (ph : Phase M S),
      drainSeq ops nq (a ++ b) ph
        = match drainSeq ops nq a ph with
          | none => none
          | some ph2 => drainSeq ops nq b ph2
  | [], b, ph => by simp [drainSeq]
  | ev :: rest, b, ph => by
    cases hde : drainEvent ops nq ev ph with
    | none => simp [drainSeq, hde]
    | some ph2 => simp [drainSeq, hde, drainSeq_append ops nq rest b ph2]

theorem drainLanes_eq_flat {M : Type u} {S : Type v} (ops : SubscriberOps M S) (nq : Nat) :
    ∀ (lanes : List (List (SimulatorEvent M))) (ph : Phase M S),
      drainLanes ops nq lanes ph = drainSeq ops nq (listFlat lanes) ph
  | [], ph => rfl
  | lane :: rest, ph => by
    show drainLanes ops nq (lane :: rest) ph = drainSeq ops nq (lane ++ listFlat rest) ph
    rw [drainSeq_append]
    cases hds : drainSeq ops nq lane ph with
    | none => simp [drainLanes, hds]
    | some ph2 => simp [drainLanes, hds, drainLanes_eq_flat ops nq rest ph2]

theorem countP_listFlat_reverse {α : Type u} (p : α → Bool) :
    ∀ (ls : List (List α)), (listFlat ls.reverse).countP p = (listFlat ls).countP p
  | [] => rfl
  | l :: ls => by
    have := countP_listFlat_reverse p ls
    simp [List.reverse_cons, listFlat_append, listFlat, List.countP_append] at *
    omega

/-! ### Step-level lemmas -/

theorem Simulator.step_time {M : Type u} {S : Type v} (ops : SubscriberOps M S)
    (sim : Simulator M S) (d : Nat) (sim' : Simulator M S) (tr : List (CallRec M))
    (h : Simulator.step ops sim d = some (sim', tr)) : sim'.time = sim.time + d := by
  simp only [Simulator.step] at h
  split at h
  · exact Option.noConfusion h
  · cases h
    rfl

theorem Simulator.step_events_length {M : Type u} {S : Type v} (ops : SubscriberOps M S)
    (sim : Simulator M S) (d : Nat) (sim' : Simulator M S) (tr : List (CallRec M))
    (h : Simulator.step ops sim d = some (sim', tr)) :
    sim'.events.length = sim.events.length := by
  simp only [Simulator.step] at h
  split at h
  · exact Option.noConfusion h
  · next ph2 hdl =>
    cases h
    show ph2.buf.length = sim.events.length
    rw [drainLanes_eq_flat] at hdl
    rw [drainSeq_buf_length _ _ _ _ _ hdl, tickSubs_buf_length, List.length_replicate]

/-- C2.  One `Simulator::step(by)` first invokes `tick` once for every
subscriber, in registry order, at the pre-step time; it advances the clock by
exactly `by` (the returned new time); every envelope returned by a callback
during the tick phase or the drain phase — and only those — ends up in the
next step's event buffer, on its saturated priority lane, in emission order
(none is dropped); and the only `receive` deliveries of the step are the
envelope events of the pre-step event set, so a freshly captured envelope is
never delivered within the step that produced it. -/
theorem step_tick_then_advance_then_capture {M : Type u} {S : Type v}
    (ops : SubscriberOps M S) (sim : Simulator M S) (d : Nat)
    (sim' : Simulator M S) (tr : List (CallRec M))
    (hnq : 1 ≤ sim.events.length)
    (h : Simulator.step ops sim d = some (sim', tr)) :
    sim'.time = sim.time + d ∧
    (∃ tickRecs drainRecs,
      tr = tickRecs ++ drainRecs ∧
      tickRecs.map CallRec.name = sim.subscribers.map Prod.fst ∧
      (∀ r ∈ tickRecs, CallRec.isTick r = true ∧ CallRec.time r = sim.time) ∧
      drainRecs.countP CallRec.isReceive
        = (listFlat sim.events).countP SimulatorEvent.isEnvelope) ∧
    ∀ i, i < sim.events.length →
      laneGet sim'.events i
        = (emittedOf tr).filter (fun ev => evLane sim.events.length ev == i) := by
  obtain ⟨hinvPh, recs1, htr1, hnames1, hall1⟩ :=
    tickSubs_spec ops sim.events.length sim.time hnq sim.subscribers
      (List.replicate sim.events.length []) [] (bufInv_init sim.events.length)
  simp only [Simulator.step] at h
  split at h
  · exact Option.noConfusion h
  · next ph2 hdl =>
    cases h
    rw [drainLanes_eq_flat] at hdl
    obtain ⟨hinv2, recs2, htr2, hcnt2⟩ :=
      drainSeq_spec ops sim.events.length hnq _ _ _ hdl hinvPh
    refine ⟨rfl, ⟨recs1, recs2, ?_, hnames1, hall1, ?_⟩, ?_⟩
    · show ph2.tr = recs1 ++ recs2
      rw [htr2, htr1]
      simp
    · rw [hcnt2, countP_listFlat_reverse]
    · intro i hi
      exact hinv2.2 i hi

/-! ### `step_to` lemmas -/

theorem stepTo_unchanged {M : Type u} {S : Type v} (ops : SubscriberOps M S)
    (sim : Simulator M S) (target stepBy : Nat) (h : target ≤ sim.time ∨ stepBy = 0) :
    Simulator.stepTo ops sim target stepBy = some sim := by
  rcases h with h | h
  · rw [Simulator.stepTo.eq_def, dif_neg (Nat.not_lt.mpr h)]
  · subst h
    rw [Simulator.stepTo.eq_def]
    by_cases h1 : sim.time < target
    · rw [dif_pos h1, dif_pos (by simp)]
    · rw [dif_neg h1]

theorem stepTo_step_none {M : Type u} {S : Type v} (ops : SubscriberOps M S)
    (sim : Simulator M S) (target stepBy : Nat)
    (h1 : sim.time < target) (h0 : min stepBy (target - sim.time) ≠ 0)
    (hs : Simulator.step ops sim (min stepBy (target - sim.time)) = none) :
    Simulator.stepTo ops sim target stepBy = none := by
  rw [Simulator.stepTo.eq_def, dif_pos h1, dif_neg h0]
  split
  · rfl
  · next p2 hs2 =>
    rw [hs] at hs2
    exact Option.noConfusion hs2

theorem stepTo_step_some {M : Type u} {S : Type v} (ops : SubscriberOps M S)
    (sim : Simulator M S) (target stepBy : Nat)
    (h1 : sim.time < target) (h0 : min stepBy (target - sim.time) ≠ 0)
    (p : Simulator M S × List (CallRec M))
    (hs : Simulator.step ops sim (min stepBy (target - sim.time)) = some p) :
    Simulator.stepTo ops sim target stepBy = Simulator.stepTo ops p.1 target stepBy := by
  rw [Simulator.stepTo.eq_def, dif_pos h1, dif_neg h0]
  split
  · next hs2 =>
    rw [hs] at hs2
    exact Option.noConfusion hs2
  · next p2 hs2 =>
    rw [hs] at hs2
    cases hs2
    rfl

theorem stepTo_reach_aux {M : Type u} {S : Type v} (ops : SubscriberOps M S)
    (target stepBy : Nat) (hby : 0 < stepBy) :
    ∀ (k : Nat) (sim sim' : Simulator M S), target - sim.time ≤ k → sim.time < target →
      Simulator.stepTo ops sim target stepBy = some sim' → sim'.time = target := by
  intro k
  induction k with
  | zero =>
    intro sim sim' hk hlt h
    exact absurd hlt (by omega)
  | succ k ih =>
    intro sim sim' hk hlt h
    have h0 : min stepBy (target - sim.time) ≠ 0 := by omega
    cases hs : Simulator.step ops sim (min stepBy (target - sim.time)) with
    | none =>
      rw [stepTo_step_none ops sim target stepBy hlt h0 hs] at h
      exact Option.noConfusion h
    | some p =>
      rw [stepTo_step_some ops sim target stepBy hlt h0 p hs] at h
      have ht := Simulator.step_time ops sim _ p.1 p.2 hs
      by_cases h2 : p.1.time < target
      · exact ih p.1 sim' (by omega) h2 h
      · have hEq : p.1.time = target := by omega
        rw [stepTo_unchanged ops p.1 target stepBy (Or.inl (by omega))] at h
        cases h
        exact hEq

/-! ### Priority-poll lemmas -/

theorem tryPollFrom_some {A : Type u} (qs : List (List (Envelope A))) :
    ∀ (k i : Nat) (e : Envelope A) (qs' : List (List (Envelope A))),
      tryPollFrom qs k = some (i, e, qs') →
      i < k ∧ (∃ rest, laneGet qs i = e :: rest ∧ qs' = setLane qs i rest) ∧
      ∀ j, i < j → j < k → laneGet qs j = []
  | 0, i, e, qs', h => Option.noConfusion h
  | k + 1, i, e, qs', h => by
    cases hl : laneGet qs k with
    | nil =>
      simp only [tryPollFrom, hl] at h
      obtain ⟨h1, h2, h3⟩ := tryPollFrom_some qs k i e qs' h
      refine ⟨Nat.lt_succ_of_lt h1, h2, ?_⟩
      intro j hij hjk
      rcases Nat.lt_succ_iff_lt_or_eq.mp hjk with h4 | h4
      · exact h3 j hij h4
      · subst h4
        exact hl
    | cons e2 rest =>
      simp only [tryPollFrom, hl, Option.some.injEq, Prod.mk.injEq] at h
      obtain ⟨rfl, rfl, rfl⟩ := h
      refine ⟨Nat.lt_succ_self k, ⟨rest, hl, rfl⟩, ?_⟩
      intro j hkj hjk
      exact absurd hkj (by omega)

theorem tryPollFrom_none {A : Type u} (qs : List (List (Envelope A))) :
    ∀ (k : Nat), tryPollFrom qs k = none → ∀ j, j < k → laneGet qs j = []
  | 0, _, j, hj => absurd hj (Nat.not_lt_zero j)
  | k + 1, h, j, hj => by
    cases hl : laneGet qs k with
    | nil =>
      simp only [tryPollFrom, hl] at h
      rcases Nat.lt_succ_iff_lt_or_eq.mp hj with h4 | h4
      · exact tryPollFrom_none qs k h j h4
      · subst h4
        exact hl
    | cons e2 rest =>
      simp only [tryPollFrom, hl] at h
      exact Option.noConfusion h

/-! ### Registry lemmas -/

theorem lookupSub_insertSub_self {S : Type v} :
    ∀ (subs : List (String × S)) (n : String) (s : S),
      lookupSub n (insertSub subs n s) = some s
  | [], n, s => by simp [insertSub, lookupSub]
  | p :: rest, n, s => by
    by_cases h : p.1 = n
    · simp [insertSub, h, lookupSub]
    · simp [insertSub, h, lookupSub, lookupSub_insertSub_self rest n s]

theorem insertSub_length_of_found {S : Type v} :
    ∀ (subs : List (String × S)) (n : String) (s v' : S),
      lookupSub n subs = some v' → (insertSub subs n s).length = subs.length
  | [], n, s, v', h => Option.noConfusion h
  | p :: rest, n, s, v', h => by
    by_cases hp : p.1 = n
    · simp [insertSub, hp]
    · simp only [lookupSub, if_neg hp] at h
      simp [insertSub, hp, insertSub_length_of_found rest n s v' h]

theorem countP_key_zero {S : Type v} :
    ∀ (subs : List (String × S)) (n : String), n ∉ subs.map Prod.fst →
      subs.countP (fun p => p.1 == n) = 0
  | [], _, _ => rfl
  | p :: rest, n, h => by
    have h1 : ¬ p.1 = n := fun hc => h (by simp [hc])
    have h2 : n ∉ rest.map Prod.fst := fun hc => h (by simp [hc])
    simp [List.countP_cons, h1, countP_key_zero rest n h2]

theorem countP_key_insertSub {S : Type v} :
    ∀ (subs : List (String × S)) (n : String) (s : S), (subs.map Prod.fst).Nodup →
      (insertSub subs n s).countP (fun p => p.1 == n) = 1
  | [], n, s, _ => by simp [insertSub, List.countP_cons]
  | p :: rest, n, s, hnd => by
    have hnd2 : (rest.map Prod.fst).Nodup := by
      simpa using hnd.of_cons
    by_cases hp : p.1 = n
    · have hmem : p.1 ∉ rest.map Prod.fst := by
        simp only [List.map_cons, List.nodup_cons] at hnd
        exact hnd.1
      simp [insertSub, hp, List.countP_cons, countP_key_zero rest n (hp ▸ hmem)]
    · simp [insertSub, hp, List.countP_cons, countP_key_insertSub rest n s hnd2]

theorem mem_keys_insertSub {S : Type v} :
    ∀ (subs : List (String × S)) (n : String) (s : S) (x : String),
      x ∈ (insertSub subs n s).map Prod.fst → x ∈ subs.map Prod.fst ∨ x = n
  | [], n, s, x, h => by
    simp [insertSub] at h
    exact Or.inr h
  | p :: rest, n, s, x, h => by
    by_cases hp : p.1 = n
    · simp only [insertSub, if_pos hp, List.map_cons, List.mem_cons] at h
      rcases h with h | h
      · exact Or.inr h
      · exact Or.inl (by simp [h])
    · simp only [insertSub, if_neg hp, List.map_cons, List.mem_cons] at h
      rcases h with h | h
      · exact Or.inl (by simp [h])
      · rcases mem_keys_insertSub rest n s x h with h2 | h2
        · exact Or.inl (by simp [h2])
        · exact Or.inr h2

theorem nodup_keys_insertSub {S : Type v} :
    ∀ (subs : List (String × S)) (n : String) (s : S), (subs.map Prod.fst).Nodup →
      ((insertSub subs n s).map Prod.fst).Nodup
  | [], n, s, _ => by simp [insertSub]
  | p :: rest, n, s, hnd => by
    simp only [List.map_cons, List.nodup_cons] at hnd
    by_cases hp : p.1 = n
    · simp only [insertSub, if_pos hp, List.map_cons, List.nodup_cons]
      exact ⟨hp ▸ hnd.1, hnd.2⟩
    · simp only [insertSub, if_neg hp, List.map_cons, List.nodup_cons]
      refine ⟨?_, nodup_keys_insertSub rest n s hnd.2⟩
      intro hc
      rcases mem_keys_insertSub rest n s p.1 hc with h2 | h2
      · exact hnd.1 h2
      · exact hp h2

/-! ## Claim theorems -/

/-- C1 (amended).  In the live bus dispatch loop an envelope whose
destination names no registered subscriber is dropped silently: the delivery
phase leaves the registry (hence every subscriber's state) and the queues
unchanged.  In the Simulator's step drain phase, by contrast, such an
envelope makes the drain panic (the source unwraps the registry lookup), so
the step does not complete. -/
theorem unknown_destination_bus_drops_sim_panics {M : Type u} {S : Type v} :
    (∀ (ops : SubscriberOps M S) (subs : List (String × S))
       (txs : List (List (Envelope M))) (e : Envelope M) (t : Nat),
       lookupSub e.destination subs = none →
       busDeliver ops subs txs e t = (subs, txs)) ∧
    (∀ (ops : SubscriberOps M S) (nq : Nat) (e : Envelope M) (t : Nat) (ph : Phase M S),
       lookupSub e.destination ph.subs = none →
       drainEvent ops nq (SimulatorEvent.envelope e t) ph = none) := by
  constructor
  · intro ops subs txs e t h
    simp [busDeliver, h]
  · intro ops nq e t ph h
    simp [drainEvent, h]

/-- C1 counterexample.  The claim as stated says the Simulator's step drain
phase also drops an unknown-destination envelope silently, without a panic;
on this concrete simulator (no subscribers, one pending envelope addressed
to an unregistered name) the drain hits `subscribers.get_mut(..).unwrap()`
and the step panics — modelled as `none`. -/
theorem step_unknown_destination_panics :
    Simulator.step opsZero simGhost 1 = none := by rfl

/-- Witness for C1's amended theorem at a concrete input. -/
theorem unknown_destination_witness :
    (lookupSub eGhost.destination ([] : List (String × Nat)) = none) ∧
    busDeliver opsZero [] [[]] eGhost 0 = ([], [[]]) ∧
    drainEvent opsZero 1 (SimulatorEvent.envelope eGhost 0) ⟨[], [[]], []⟩ = none :=
  ⟨by rfl,
   (@unknown_destination_bus_drops_sim_panics Nat Nat).1 opsZero [] [[]] eGhost 0 (by rfl),
   (@unknown_destination_bus_drops_sim_panics Nat Nat).2 opsZero 1 eGhost 0 ⟨[], [[]], []⟩ (by rfl)⟩

/-- Witness for C2 at a concrete simulator: one subscriber, two lanes, one
pending envelope, tick emitting one priority-3 envelope (saturated to
lane 1). -/
theorem step_semantics_witness :
    (1 ≤ simOne.events.length) ∧
    (Simulator.step opsPing simOne 5 = some (simOneStepped, trOne)) ∧
    (simOneStepped.time = simOne.time + 5 ∧
      (∃ tickRecs drainRecs,
        trOne = tickRecs ++ drainRecs ∧
        tickRecs.map CallRec.name = simOne.subscribers.map Prod.fst ∧
        (∀ r ∈ tickRecs, CallRec.isTick r = true ∧ CallRec.time r = simOne.time) ∧
        drainRecs.countP CallRec.isReceive
          = (listFlat simOne.events).countP SimulatorEvent.isEnvelope) ∧
      ∀ i, i < simOne.events.length →
        laneGet simOneStepped.events i
          = (emittedOf trOne).filter (fun ev => evLane simOne.events.length ev == i)) :=
  ⟨by decide, by rfl,
   step_tick_then_advance_then_capture opsPing simOne 5 simOneStepped trOne (by decide) (by rfl)⟩

/-- C3.  At every dequeue decision strict priority holds.  Live bus: the
non-blocking poll returns the front envelope of the highest-index non-empty
lane (every lane above it is empty), removing it from that lane's front, and
returns nothing only when every lane is empty.  Simulator: a step drains the
frozen event set exactly as one flat pass over the lanes in descending
priority order, FIFO within each lane. -/
theorem strict_priority_dequeue {M : Type u} {S : Type v} :
    (∀ (qs : List (List (Envelope M))) (i : Nat) (e : Envelope M)
       (qs' : List (List (Envelope M))), tryPoll qs = some (i, e, qs') →
       i < qs.length ∧ (∃ rest, laneGet qs i = e :: rest ∧ qs' = setLane qs i rest) ∧
       ∀ j, i < j → laneGet qs j = []) ∧
    (∀ (qs : List (List (Envelope M))), tryPoll qs = none → ∀ j, laneGet qs j = []) ∧
    (∀ (ops : SubscriberOps M S) (sim : Simulator M S) (d : Nat),
       Simulator.step ops sim d = Simulator.stepFlat ops sim d) := by
  refine ⟨?_, ?_, ?_⟩
  · intro qs i e qs' h
    obtain ⟨h1, h2, h3⟩ := tryPollFrom_some qs qs.length i e qs' h
    refine ⟨h1, h2, ?_⟩
    intro j hij
    by_cases hj : j < qs.length
    · exact h3 j hij hj
    · exact laneGet_of_length_le qs j (Nat.not_lt.mp hj)
  · intro qs h j
    by_cases hj : j < qs.length
    · exact tryPollFrom_none qs qs.length h j hj
    · exact laneGet_of_length_le qs j (Nat.not_lt.mp hj)
  · intro ops sim d
    simp only [Simulator.step, Simulator.stepFlat, drainLanes_eq_flat]

/-- Witness for C3 at concrete lanes. -/
theorem strict_priority_witness :
    (tryPoll qsTwo = some (1, envY, [[envX], []])) ∧
    (1 < qsTwo.length ∧
      (∃ rest, laneGet qsTwo 1 = envY :: rest ∧
        ([[envX], []] : List (List (Envelope Nat))) = setLane qsTwo 1 rest) ∧
      ∀ j, 1 < j → laneGet qsTwo j = []) ∧
    (tryPoll ([[], []] : List (List (Envelope Nat))) = none) ∧
    (∀ j, laneGet ([[], []] : List (List (Envelope Nat))) j = []) :=
  ⟨by rfl,
   (@strict_priority_dequeue Nat Nat).1 qsTwo 1 envY [[envX], []] (by rfl),
   by rfl,
   (@strict_priority_dequeue Nat Nat).2.1 [[], []] (by rfl)⟩

/-- C4.  Downcasting round-trip: for any runtime type tag `a` and payload
`w`, downcasting the wrapped message to `a` succeeds and yields `w`; for any
distinct tag `b`, downcasting to `b` is a recoverable failure carrying the
original message unchanged. -/
theorem downcast_roundtrip {ι : Type u} {F : ι → Type v} [DecidableEq ι]
    (a b : ι) (w : F a) :
    DynMsg.downcast a (⟨a, w⟩ : DynMsg ι F) = Except.ok w ∧
    (a ≠ b → DynMsg.downcast b (⟨a, w⟩ : DynMsg ι F) = Except.error ⟨a, w⟩) :=
  ⟨dif_pos rfl, fun h => dif_neg h⟩

/-- Witness for C4 at concrete tags. -/
theorem downcast_witness :
    DynMsg.downcast 0 (⟨0, 5⟩ : DynMsg Nat (fun _ => Nat)) = Except.ok 5 ∧
    DynMsg.downcast 1 (⟨0, 5⟩ : DynMsg Nat (fun _ => Nat)) = Except.error ⟨0, 5⟩ :=
  ⟨(@downcast_roundtrip Nat (fun _ => Nat) _ 0 1 5).1,
   (@downcast_roundtrip Nat (fun _ => Nat) _ 0 1 5).2 (by decide)⟩

/-- C5.  Saturated priority routing: `publish` appends the envelope to lane
`min(priority, N-1)` and leaves every other lane unchanged; the same holds
for the dispatch loop's callback-envelope send (`busSend`) and for the
Simulator's capture of a callback-returned envelope into the next-step
buffer, so any priority exceeding `N-1` saturates to the highest lane. -/
theorem priority_saturated_routing {M : Type u} {S : Type v} :
    (∀ (b : MessageBus M S) (e : Envelope (BusMsg M)) (i : Nat), i < b.queues.length →
       laneGet (MessageBus.publish b e).queues i
         = (if i = min e.priority (b.queues.length - 1)
            then laneGet b.queues i ++ [e] else laneGet b.queues i)) ∧
    (∀ (txs : List (List (Envelope M))) (e : Envelope M) (i : Nat), i < txs.length →
       laneGet (busSend txs e) i
         = (if i = min e.priority (txs.length - 1)
            then laneGet txs i ++ [e] else laneGet txs i)) ∧
    (∀ (nq t : Nat) (e : Envelope M) (buf : List (List (SimulatorEvent M))) (i : Nat),
       buf.length = nq → i < nq →
       laneGet (emitAll nq t [e] buf) i
         = (if i = min e.priority (nq - 1)
            then laneGet buf i ++ [SimulatorEvent.envelope e t] else laneGet buf i)) := by
  have core : ∀ (A : Type u) (txs : List (List (Envelope A))) (e : Envelope A) (i : Nat),
      i < txs.length →
      laneGet (busSend txs e) i
        = (if i = min e.priority (txs.length - 1)
           then laneGet txs i ++ [e] else laneGet txs i) := by
    intro A txs e i hi
    by_cases h : i = min e.priority (txs.length - 1)
    · rw [if_pos h]
      show laneGet (enqueueAt txs (laneOf txs.length e) e) i = _
      have hl : laneOf txs.length e = i := by
        rw [laneOf, ← h]
      rw [hl]
      exact laneGet_enqueueAt_self txs i e hi
    · rw [if_neg h]
      show laneGet (enqueueAt txs (laneOf txs.length e) e) i = _
      refine laneGet_enqueueAt_other txs _ i e ?_
      intro hc
      exact h (by rw [← hc, laneOf])
  refine ⟨?_, core M, ?_⟩
  · intro b e i hi
    exact core (BusMsg M) b.queues e i hi
  · intro nq t e buf i hb hi
    subst hb
    by_cases h : i = min e.priority (buf.length - 1)
    · rw [if_pos h]
      show laneGet (enqueueAt buf (laneOf buf.length e) (SimulatorEvent.envelope e t)) i = _
      have hl : laneOf buf.length e = i := by
        rw [laneOf, ← h]
      rw [hl]
      exact laneGet_enqueueAt_self buf i _ hi
    · rw [if_neg h]
      show laneGet (enqueueAt buf (laneOf buf.length e) (SimulatorEvent.envelope e t)) i = _
      refine laneGet_enqueueAt_other buf _ i _ ?_
      intro hc
      exact h (by rw [← hc, laneOf])

/-- Witness for C5: a priority-9 envelope published on a two-lane bus lands
on lane 1. -/
theorem priority_saturation_witness :
    (1 < busOne.queues.length) ∧
    laneGet (MessageBus.publish busOne envHigh).queues 1
      = (if 1 = min envHigh.priority (busOne.queues.length - 1)
         then laneGet busOne.queues 1 ++ [envHigh] else laneGet busOne.queues 1) :=
  ⟨by decide, (@priority_saturated_routing Nat Nat).1 busOne envHigh 1 (by decide)⟩

/-- C6.  `stop` is idempotent and shutdown is monotonic: a stop on an
already-stopped bus returns it unchanged (no second sentinel, no second
join); `stop` always leaves the shutdown flag set; `stop ∘ stop = stop`; the
first stop injects the sentinel on the top-priority lane and releases the
join handle; and none of `subscribe`, `publish`, `start` ever changes the
shutdown flag. -/
theorem stop_idempotent_shutdown_monotonic {M : Type u} {S : Type v} :
    (∀ b : MessageBus M S, b.shutdown = true → MessageBus.stop b = b) ∧
    (∀ b : MessageBus M S, (MessageBus.stop b).shutdown = true) ∧
    (∀ b : MessageBus M S, MessageBus.stop (MessageBus.stop b) = MessageBus.stop b) ∧
    (∀ b : MessageBus M S, b.shutdown = false →
       (MessageBus.stop b).queues
         = enqueueAt b.queues (b.queues.length - 1) (sentinelEnvelope M) ∧
       (MessageBus.stop b).handle = false) ∧
    (∀ (b : MessageBus M S) (n : String) (s : S),
       (MessageBus.subscribe b n s).shutdown = b.shutdown) ∧
    (∀ (b : MessageBus M S) (e : Envelope (BusMsg M)),
       (MessageBus.publish b e).shutdown = b.shutdown) ∧
    (∀ (b b' : MessageBus M S), MessageBus.start b = some b' →
       b'.shutdown = b.shutdown) := by
  refine ⟨?_, ?_, ?_, ?_, ?_, ?_, ?_⟩
  · intro b hb
    simp [MessageBus.stop, hb]
  · intro b
    by_cases hb : b.shutdown <;> simp [MessageBus.stop, hb]
  · intro b
    by_cases hb : b.shutdown <;> simp [MessageBus.stop, hb]
  · intro b hb
    exact ⟨by simp [MessageBus.stop, hb], by simp [MessageBus.stop, hb]⟩
  · intro b n s
    rfl
  · intro b e
    rfl
  · intro b b' h
    simp only [MessageBus.start] at h
    split at h
    · exact Option.noConfusion h
    · cases h
      rfl

/-- Witness for C6 at a concrete bus. -/
theorem stop_witness :
    ((MessageBus.stop busOne).shutdown = true ∧
      MessageBus.stop (MessageBus.stop busOne) = MessageBus.stop busOne) ∧
    (busOne.shutdown = false ∧
      (MessageBus.stop busOne).queues
        = enqueueAt busOne.queues (busOne.queues.length - 1) (sentinelEnvelope Nat) ∧
      (MessageBus.stop busOne).handle = false) ∧
    (MessageBus.start busOne = some busStarted ∧ busStarted.shutdown = busOne.shutdown) :=
  ⟨⟨by rfl, (@stop_idempotent_shutdown_monotonic Nat Nat).1 (MessageBus.stop busOne) (by rfl)⟩,
   ⟨by rfl, (@stop_idempotent_shutdown_monotonic Nat Nat).2.2.2.1 busOne (by rfl)⟩,
   ⟨by rfl,
    (@stop_idempotent_shutdown_monotonic Nat Nat).2.2.2.2.2.2 busOne busStarted (by rfl)⟩⟩

/-- C7.  `step_to(target, by)`: when the target is at or before the current
time, or the step size is zero, the simulator is returned unchanged (a zero
increment breaks out immediately); when the clock is strictly before the
target and the step size is positive, the loop of `step(min(by, target -
time))` calls terminates and the returned time is exactly the target. -/
theorem step_to_target_semantics {M : Type u} {S : Type v} (ops : SubscriberOps M S) :
    (∀ (sim : Simulator M S) (target stepBy : Nat), target ≤ sim.time ∨ stepBy = 0 →
       Simulator.stepTo ops sim target stepBy = some sim) ∧
    (∀ (sim : Simulator M S) (target stepBy : Nat) (sim' : Simulator M S),
       0 < stepBy → sim.time < target →
       Simulator.stepTo ops sim target stepBy = some sim' → sim'.time = target) :=
  ⟨fun sim target stepBy h => stepTo_unchanged ops sim target stepBy h,
   fun sim target stepBy sim' hby hlt h =>
     stepTo_reach_aux ops target stepBy hby (target - sim.time) sim sim' le_rfl hlt h⟩

/-- Witness for C7: stepping an empty simulator from time 0 to 7 in steps of
3 lands exactly on 7; a target at or before the current time leaves the
simulator untouched. -/
theorem step_to_witness :
    (Simulator.stepTo opsZero simEmpty 0 5 = some simEmpty) ∧
    ((⟨[], [[]], 7⟩ : Simulator Nat Nat).time = 7) := by
  have hrun : Simulator.stepTo opsZero simEmpty 7 3
      = some (⟨[], [[]], 7⟩ : Simulator Nat Nat) := by
    rw [stepTo_step_some opsZero simEmpty 7 3 (by decide) (by decide)
          ((⟨[], [[]], 3⟩ : Simulator Nat Nat), []) (by rfl)]
    rw [stepTo_step_some opsZero ⟨[], [[]], 3⟩ 7 3 (by decide) (by decide)
          ((⟨[], [[]], 6⟩ : Simulator Nat Nat), []) (by rfl)]
    rw [stepTo_step_some opsZero ⟨[], [[]], 6⟩ 7 3 (by decide) (by decide)
          ((⟨[], [[]], 7⟩ : Simulator Nat Nat), []) (by rfl)]
    exact stepTo_unchanged opsZero ⟨[], [[]], 7⟩ 7 3 (Or.inl (by decide))
  exact ⟨(step_to_target_semantics opsZero).1 simEmpty 0 5 (Or.inl (by decide)),
         (step_to_target_semantics opsZero).2 simEmpty 7 3 ⟨[], [[]], 7⟩
           (by decide) (by decide) hrun⟩

/-- C8.  Queue-count normalization: a bus built with `queue_count = 0` gets
exactly one queue (in general `max 1 q` queues, so always at least one), and
a Simulator built from an empty initial event vector gets exactly one
priority lane. -/
theorem queue_count_normalized {M : Type u} {S : Type v} :
    (∀ ti q : Nat, (MessageBus.withHook ti q : MessageBus M S).queues.length = max 1 q) ∧
    (∀ (subs : List (String × S)) (t : Nat) (evs : List (List (SimulatorEvent M))),
       (Simulator.new subs t evs).events.length = max 1 evs.length) := by
  constructor
  · intro ti q
    by_cases h : q = 0
    · simp [MessageBus.withHook, h]
    · simp only [MessageBus.withHook, List.length_replicate, if_neg h]
      omega
  · intro subs t evs
    cases evs with
    | nil => simp [Simulator.new]
    | cons l ls =>
      simp only [Simulator.new, List.isEmpty_cons, if_neg Bool.false_ne_true, List.length_cons]
      omega

/-- C9.  Registering the same destination twice keeps exactly one subscriber
under that name — the one given by the second call — without error: the
lookup finds the second subscriber, the name occurs once, the second call
does not grow the registry, and key uniqueness is preserved. -/
theorem subscribe_last_wins {M : Type u} {S : Type v} (b : MessageBus M S) (n : String)
    (s1 s2 : S) (hk : (b.subscribers.map Prod.fst).Nodup) :
    lookupSub n ((b.subscribe n s1).subscribe n s2).subscribers = some s2 ∧
    ((b.subscribe n s1).subscribe n s2).subscribers.countP (fun p => p.1 == n) = 1 ∧
    ((b.subscribe n s1).subscribe n s2).subscribers.length
      = (b.subscribe n s1).subscribers.length ∧
    (((b.subscribe n s1).subscribe n s2).subscribers.map Prod.fst).Nodup :=
  ⟨lookupSub_insertSub_self _ n s2,
   countP_key_insertSub _ n s2 (nodup_keys_insertSub b.subscribers n s1 hk),
   insertSub_length_of_found _ n s2 s1 (lookupSub_insertSub_self b.subscribers n s1),
   nodup_keys_insertSub _ n s2 (nodup_keys_insertSub b.subscribers n s1 hk)⟩

/-- Witness for C9 at a concrete bus. -/
theorem subscribe_witness :
    (busOne.subscribers.map Prod.fst).Nodup ∧
    (lookupSub ("b") (((busOne.subscribe ("b") 1).subscribe ("b") 2).subscribers) = some 2 ∧
     ((busOne.subscribe ("b") 1).subscribe ("b") 2).subscribers.countP
       (fun p => p.1 == ("b")) = 1 ∧
     ((busOne.subscribe ("b") 1).subscribe ("b") 2).subscribers.length
       = (busOne.subscribe ("b") 1).subscribers.length ∧
     (((busOne.subscribe ("b") 1).subscribe ("b") 2).subscribers.map Prod.fst).Nodup) :=
  ⟨by decide, subscribe_last_wins busOne ("b") 1 2 (by decide)⟩

/-- C10.  Lane-count invariant: a freshly constructed Simulator has at least
one priority lane, and a completed `step` never adds or removes a lane — the
next-step buffer is created with exactly as many lanes as the pre-step event
set. -/
theorem lane_count_invariant {M : Type u} {S : Type v} :
    (∀ (subs : List (String × S)) (t : Nat) (evs : List (List (SimulatorEvent M))),
       1 ≤ (Simulator.new subs t evs).events.length) ∧
    (∀ (ops : SubscriberOps M S) (sim : Simulator M S) (d : Nat) (sim' : Simulator M S)
       (tr : List (CallRec M)), Simulator.step ops sim d = some (sim', tr) →
       sim'.events.length = sim.events.length) := by
  constructor
  · intro subs t evs
    cases evs with
    | nil => simp [Simulator.new]
    | cons l ls =>
      simp only [Simulator.new, List.isEmpty_cons, if_neg Bool.false_ne_true, List.length_cons]
      omega
  · exact fun ops sim d sim' tr h => Simulator.step_events_length ops sim d sim' tr h

/-- Witness for C10 at the concrete step used for C2's witness data. -/
theorem lane_count_witness :
    (Simulator.step opsPing simOne 5 = some (simOneStepped, trOne)) ∧
    simOneStepped.events.length = simOne.events.length :=
  ⟨by rfl, (@lane_count_invariant Nat Nat).2 opsPing simOne 5 simOneStepped trOne (by rfl)⟩
